import Mathlib

/-!
Shallow embedding of `src/patent_fetcher.py` (the `parse` family of
functions) and verification of the specification's claims about it.

The document tree produced by BeautifulSoup is modelled by `HNode`:
an element node carries a numeric identity `tid` (standing for CPython's
`id()` of the tag object), a tag name, an attribute list and ordered
children; a text node carries its string.  Attribute values are either a
single string or a list of strings (BeautifulSoup's multi-valued
attributes such as `class`).  The output `dict` is modelled by `Value` /
`Record` with Python-dict insertion-order semantics (`upsert`).  Python
exceptions (`assert`, `KeyError`, `AttributeError` from `.append` on a
non-list) are modelled with `Except`.
-/

namespace PatentFetcher

/-- A BeautifulSoup attribute value: a plain string, or a list of strings
for multi-valued attributes (`class` is always parsed as a list by
html.parser). -/
inductive AttrV where
  | one (s : String)
  | many (ss : List String)
  deriving Repr, DecidableEq

/-- Python truthiness of an attribute value: empty string and empty list
are falsy. -/
def AttrV.truthy : AttrV → Bool
  | .one s => s ≠ ""
  | .many ss => !ss.isEmpty

/-- A document node: an element (with identity, name, attributes and
children) or a navigable string. -/
inductive HNode where
  | text (s : String)
  | elem (tid : Nat) (name : String) (attrs : List (String × AttrV)) (children : List HNode)
  deriving Repr

/-- JSON-shaped output value (the Python `Any` stored in the record). -/
inductive Value where
  | str (s : String)
  | null
  | obj (fields : List (String × Value))
  | arr (items : List Value)
  deriving Repr

/-- A record under construction: a Python dict modelled as an
insertion-ordered association list with unique keys. -/
abbrev Record := List (String × Value)

/-- Whether a value is a Python list (the only values with an `.append`
method). -/
def Value.isArr : Value → Bool
  | .arr _ => true
  | _ => false

/-- Python dict lookup. -/
def recLookup (r : Record) (k : String) : Option Value :=
  (r.find? (fun p => p.1 == k)).map (·.2)

/-- Python dict assignment: overwrite in place if the key exists
(keeping its insertion position), otherwise append at the end. -/
def upsert (r : Record) (k : String) (v : Value) : Record :=
  match r with
  | [] => [(k, v)]
  | (k', v') :: rest => if k' == k then (k, v) :: rest else (k', v') :: upsert rest k v

/-- Build a dict from a field iterator (`dict(gen)`): later duplicate
keys overwrite earlier ones, keeping the first key's position. -/
def buildDict (fields : List (String × Value)) : Record :=
  fields.foldl (fun r p => upsert r p.1 p.2) []

/-- `tag.attrs` (empty for a text node). -/
def HNode.attrs : HNode → List (String × AttrV)
  | .text _ => []
  | .elem _ _ a _ => a

/-- `tag.name` (unused for text nodes; the Python code guards every
`.name` access with an `isinstance(…, Tag)` check). -/
def HNode.name : HNode → String
  | .text _ => ""
  | .elem _ n _ _ => n

/-- `tag.children`. -/
def HNode.children : HNode → List HNode
  | .text _ => []
  | .elem _ _ _ cs => cs

/-- `id(tag)`; the Python code only takes ids of element nodes. -/
def HNode.nodeId : HNode → Nat
  | .text _ => 0
  | .elem tid _ _ _ => tid

/-- `tag.get(key)` — attribute lookup. -/
def HNode.getAttr (t : HNode) (k : String) : Option AttrV :=
  (t.attrs.find? (fun p => p.1 == k)).map (·.2)

/-- `tag.has_attr(key)`. -/
def HNode.hasAttr (t : HNode) (k : String) : Bool :=
  (t.getAttr k).isSome

/-- `tag.get(key)` followed by a Python truthiness test: returns the
value only when it is truthy. -/
def HNode.truthyAttr (t : HNode) (k : String) : Option AttrV :=
  match t.getAttr k with
  | some v => if v.truthy then some v else none
  | none => none

/-- An attribute value rendered into the output record (a string stays a
string; a multi-valued attribute becomes the list of its strings). -/
def AttrV.toValue : AttrV → Value
  | .one s => .str s
  | .many ss => .arr (ss.map .str)

/-- `tag.get("class") or []`: the class list of a tag.  html.parser
always parses `class` as a multi-valued attribute, so the single-string
case is normalized to a one-element list here (empty string being falsy
yields `[]` as in Python). -/
def HNode.classes (t : HNode) : List String :=
  match t.getAttr "class" with
  | some (.many ss) => ss
  | some (.one s) => if s = "" then [] else [s]
  | none => []

/-- `has_class(tag, class_name)` from the source. -/
def has_class (t : HNode) (c : String) : Bool :=
  t.classes.contains c

/-- `tag.string`: the string of a node with a unique child chain ending
in a text node, else `None`. -/
def HNode.string : HNode → Option String
  | .text s => some s
  | .elem _ _ _ [c] => HNode.string c
  | .elem _ _ _ _ => none

/-- Python `str.strip()`: drop leading and trailing whitespace. -/
def pyStrip (s : String) : String :=
  String.mk (((s.data.dropWhile Char.isWhitespace).reverse.dropWhile Char.isWhitespace).reverse)

mutual
/-- `tag.get_text(strip=True)`: every descendant string, stripped, and
concatenated. -/
def HNode.getTextStrip : HNode → String
  | .text s => pyStrip s
  | .elem _ _ _ cs => HNode.getTextStripList cs

/-- `get_text(strip=True)` over a list of child nodes. -/
def HNode.getTextStripList : List HNode → String
  | [] => ""
  | c :: cs => HNode.getTextStrip c ++ HNode.getTextStripList cs
end

/-- The accumulator loop of `pySplit`: `acc` holds the reversed chars of
the word being scanned. -/
def pySplitGo : List Char → List Char → List String
  | [], acc => if acc.isEmpty then [] else [String.mk acc.reverse]
  | c :: cs, acc =>
    if c.isWhitespace then
      if acc.isEmpty then pySplitGo cs []
      else String.mk acc.reverse :: pySplitGo cs []
    else pySplitGo cs (c :: acc)

/-- Python `str.split()`: split on whitespace runs, dropping empties. -/
def pySplit (s : String) : List String :=
  pySplitGo s.data []

/-- Python `str.lower()` (ASCII behaviour). -/
def pyLower (s : String) : String :=
  String.mk (s.data.map Char.toLower)

/-- Python `str.capitalize()`: first character uppercased, all remaining
characters lowercased (ASCII behaviour). -/
def pyCapitalize (s : String) : String :=
  match s.data with
  | [] => ""
  | c :: cs => String.mk (c.toUpper :: cs.map Char.toLower)

/-- `"".join(parts)`: concatenation with no separator. -/
def strJoin : List String → String
  | [] => ""
  | s :: l => s ++ strJoin l

/-- `part[0].isalnum()`.  The words produced by `pySplit` are never
empty, so the empty case is unreachable (Python would raise an
`IndexError` there). -/
def firstCharAlnum (w : String) : Bool :=
  match w.data with
  | [] => false
  | c :: _ => c.isAlphanum

/-- The loop body of `parse_label`: scan the split words, stop at the
first word whose first character is not alphanumeric, lowercase the
word at index 0 and `capitalize()` every later retained word. -/
def labelParts : Nat → List String → List String
  | _, [] => []
  | i, w :: ws =>
    if !(firstCharAlnum w) then []
    else (if i == 0 then pyLower w else pyCapitalize w) :: labelParts (i + 1) ws

/-- `parse_label(tag)`: camel-case key from a header tag's string. -/
def parse_label (t : HNode) : String :=
  match t.string with
  | none => ""
  | some raw => strJoin (labelParts 0 (pySplit (pyStrip raw)))

/-- `START_TAGS = ("dt", "h2")`. -/
def START_TAGS : List String := ["dt", "h2"]

/-- `sibling.name in START_TAGS` guarded by `isinstance(…, Tag)`. -/
def isStartTag : HNode → Bool
  | .text _ => false
  | .elem _ n _ _ => START_TAGS.contains n

/-- The Python exceptions that can escape the parsing code. -/
inductive PErr where
  | assertionError
  | keyError
  | attributeError
  deriving Repr, DecidableEq

theorem list_sizeOf_pos {α : Type} [SizeOf α] (l : List α) : 0 < sizeOf l := by
  cases l <;> simp_arith

mutual
/-- `parse_tag(tag, current_node)`.  `rest` is the list of the tag's
following siblings (`tag.next_siblings`), `hack` the process-wide
visited set of object ids. -/
def parse_tag (t : HNode) (rest : List HNode) (hack : List Nat) (cur : Record) :
    Except PErr (List Nat × Record) :=
  match t with
  | .text _ => .ok (hack, cur)
  | .elem tid nm attrs cs =>
    if tid ∈ hack then .ok (hack, cur)
    else
      let hk := tid :: hack
      if START_TAGS.contains nm then
        match parse_siblings rest hk [] with
        | .error e => .error e
        | .ok (hk2, child) =>
          .ok (hk2, upsert cur (parse_label (.elem tid nm attrs cs)) (.obj child))
      else
        match (HNode.elem tid nm attrs cs).getAttr "itemprop" with
        | none => parse_children cs hk cur
        | some pv =>
          if !pv.truthy then parse_children cs hk cur
          else
            match pv with
            | .many _ => .error .assertionError
            | .one pname =>
              if nm == "section" then .ok (hk, cur)
              else
                match property_value pname (.elem tid nm attrs cs) hk with
                | .error e => .error e
                | .ok (hk2, value) =>
                  if (HNode.elem tid nm attrs cs).hasAttr "repeat" then
                    match recLookup cur pname with
                    | none => .ok (hk2, upsert cur pname (.arr [value]))
                    | some (.arr vs) => .ok (hk2, upsert cur pname (.arr (vs ++ [value])))
                    | some _ => .error .attributeError
                  else .ok (hk2, upsert cur pname value)
termination_by sizeOf t + sizeOf rest
decreasing_by
  all_goals simp_wf
  all_goals have := list_sizeOf_pos rest
  all_goals omega

/-- `parse_children(tag, current_node)`: walk each element child; each
child's following siblings are the remaining children. -/
def parse_children (ts : List HNode) (hack : List Nat) (cur : Record) :
    Except PErr (List Nat × Record) :=
  match ts with
  | [] => .ok (hack, cur)
  | .text _ :: rest => parse_children rest hack cur
  | .elem tid nm attrs cs :: rest =>
    match parse_tag (.elem tid nm attrs cs) rest hack cur with
    | .error e => .error e
    | .ok (hk, cur2) => parse_children rest hk cur2
termination_by sizeOf ts
decreasing_by all_goals simp_wf

/-- `parse_siblings(tag, current_node)`: walk the following siblings,
stopping before the next group header. -/
def parse_siblings (ts : List HNode) (hack : List Nat) (cur : Record) :
    Except PErr (List Nat × Record) :=
  match ts with
  | [] => .ok (hack, cur)
  | .text _ :: rest => parse_siblings rest hack cur
  | .elem tid nm attrs cs :: rest =>
    if START_TAGS.contains nm then .ok (hack, cur)
    else
      match parse_tag (.elem tid nm attrs cs) rest hack cur with
      | .error e => .error e
      | .ok (hk, cur2) => parse_siblings rest hk cur2
termination_by sizeOf ts
decreasing_by all_goals simp_wf

/-- `property_value(property_name, tag)`: the attribute-precedence value
resolver. -/
def property_value (pname : String) (t : HNode) (hack : List Nat) :
    Except PErr (List Nat × Value) :=
  match t with
  | .text _ => .ok (hack, .null)
  | .elem tid nm attrs cs =>
    if (HNode.elem tid nm attrs cs).hasAttr "itemscope" then
      match parse_children cs hack [] with
      | .error e => .error e
      | .ok (hk, child) => .ok (hk, .obj child)
    else
      match (HNode.elem tid nm attrs cs).truthyAttr "content" with
      | some v => .ok (hack, v.toValue)
      | none =>
        match (HNode.elem tid nm attrs cs).truthyAttr "href" with
        | some v => .ok (hack, v.toValue)
        | none =>
          match (HNode.elem tid nm attrs cs).truthyAttr "src" with
          | some v => .ok (hack, v.toValue)
          | none =>
            if pname == "content" then
              .ok (hack, .str (HNode.getTextStrip (.elem tid nm attrs cs)))
            else
              match HNode.string (.elem tid nm attrs cs) with
              | some s => .ok (hack, .str (pyStrip s))
              | none => .ok (hack, .null)
termination_by sizeOf t
end

/-- `root.find(name)` — first descendant element with the given tag
name, in pre-order (document) order, searching the given child list. -/
def findNamedInList (nm : String) : List HNode → Option HNode
  | [] => none
  | .text _ :: rest => findNamedInList nm rest
  | .elem tid n attrs cs :: rest =>
    if n == nm then some (.elem tid n attrs cs)
    else
      match findNamedInList nm cs with
      | some r => some r
      | none => findNamedInList nm rest
termination_by ts => sizeOf ts
decreasing_by all_goals simp_wf <;> omega

/-- First descendant whose class list contains `cl` (the
`find(attrs=...)` / `find(lambda tag: has_class(tag, cl))` searches),
returned together with its ancestor chain, nearest ancestor first.
`anc` is the chain of ancestors of the nodes in the list. -/
def findClassInList (cl : String) (anc : List HNode) : List HNode → Option (HNode × List HNode)
  | [] => none
  | .text _ :: rest => findClassInList cl anc rest
  | .elem tid n attrs cs :: rest =>
    if has_class (.elem tid n attrs cs) cl then some (.elem tid n attrs cs, anc)
    else
      match findClassInList cl (.elem tid n attrs cs :: anc) cs with
      | some r => some r
      | none => findClassInList cl anc rest
termination_by ts => sizeOf ts
decreasing_by all_goals simp_wf <;> omega

/-- `find_all` of the section predicate (`tag.name == "section" and
tag.has_attr("itemscope")`) over a child list, in document order, each
match paired with its ancestor chain (nearest first). -/
def findSectionsInList (anc : List HNode) : List HNode → List (HNode × List HNode)
  | [] => []
  | .text _ :: rest => findSectionsInList anc rest
  | .elem tid n attrs cs :: rest =>
    (if n == "section" && (HNode.elem tid n attrs cs).hasAttr "itemscope" then
      [(HNode.elem tid n attrs cs, anc)] else [])
    ++ findSectionsInList (.elem tid n attrs cs :: anc) cs
    ++ findSectionsInList anc rest
termination_by ts => sizeOf ts
decreasing_by all_goals simp_wf <;> omega

/-- `find_all` of the `claim-text` class predicate over a child list, in
document order, each match paired with its ancestor chain (nearest
first) for the later `find_parent` walk. -/
def findClaimTextInList (anc : List HNode) : List HNode → List (HNode × List HNode)
  | [] => []
  | .text _ :: rest => findClaimTextInList anc rest
  | .elem tid n attrs cs :: rest =>
    (if has_class (.elem tid n attrs cs) "claim-text" then
      [(HNode.elem tid n attrs cs, anc)] else [])
    ++ findClaimTextInList (.elem tid n attrs cs :: anc) cs
    ++ findClaimTextInList anc rest
termination_by ts => sizeOf ts
decreasing_by all_goals simp_wf <;> omega

/-- `find_all` of the `parse_description` target predicate (`tag.name ==
"heading" or "description-line" in classes`) over a child list, in
document order. -/
def findDescTargetsInList : List HNode → List HNode
  | [] => []
  | .text _ :: rest => findDescTargetsInList rest
  | .elem tid n attrs cs :: rest =>
    (if n == "heading" || has_class (.elem tid n attrs cs) "description-line" then
      [HNode.elem tid n attrs cs] else [])
    ++ findDescTargetsInList cs
    ++ findDescTargetsInList rest
termination_by ts => sizeOf ts
decreasing_by all_goals simp_wf <;> omega

/-- The fields of `attrs_except_class(tag)`, rendered as record
fields. -/
def attrs_except_class (t : HNode) : List (String × Value) :=
  (t.attrs.filter (fun p => p.1 ≠ "class")).map (fun p => (p.1, p.2.toValue))

/-- All attributes of a tag as record fields (`yield from
tag.attrs.items()`, no filtering). -/
def allAttrFields (t : HNode) : List (String × Value) :=
  t.attrs.map (fun p => (p.1, p.2.toValue))

/-- `parse_abstract(section)`: the fixed-role `<abstract>` descendant's
attributes (all of them, `class` included) plus its stripped text under
key `content`, or an `assert` failure when the descendant is missing. -/
def parse_abstract (s : HNode) : Except PErr Record :=
  match findNamedInList "abstract" s.children with
  | none => .error .assertionError
  | some ab =>
    .ok (buildDict (allAttrFields ab ++ [("content", .str ab.getTextStrip)]))

/-- One description line: `{"num": tag.get("num"), "text": text}`. -/
def descLine (t : HNode) : Value :=
  .obj [("num", match t.getAttr "num" with
                | some v => v.toValue
                | none => .null),
        ("text", .str t.getTextStrip)]

/-- One description part: `{"heading": h, "lines": ls}`. -/
def descPart (h : String) (ls : List Value) : Value :=
  .obj [("heading", .str h), ("lines", .arr ls)]

/-- The scan loop of `parse_description`: fold the found target tags
into parts, a heading closing and pushing the current part. -/
def buildParts : List HNode → String → List Value → List Value → List Value
  | [], h, ls, acc => acc ++ [descPart h ls]
  | t :: ts, h, ls, acc =>
    if t.name == "heading" then
      buildParts ts t.getTextStrip [] (acc ++ [descPart h ls])
    else
      buildParts ts h (ls ++ [descLine t]) acc

/-- `parse_description(section)`: the `description`-classed descendant's
non-class attributes plus the `parts` partition of its headings and
description lines. -/
def parse_description (s : HNode) : Except PErr Record :=
  match findClassInList "description" [s] s.children with
  | none => .error .assertionError
  | some (d, _) =>
    .ok (buildDict (attrs_except_class d
          ++ [("parts", .arr (buildParts (findDescTargetsInList d.children) "" [] []))]))

/-- `text_tag.find_parent(lambda t: has_class(t, "claim"))`: the nearest
ancestor with class `claim`. -/
def findParentClaim (anc : List HNode) : Option HNode :=
  anc.find? (fun a => has_class a "claim")

/-- The generator loop of `find_claims`: for each `claim-text` leaf (with
its ancestor chain), find the nearest `claim`-classed ancestor (an
`assert` failure if absent) and yield it unless its id was already
seen. -/
def find_claims_go : List (HNode × List HNode) → List Nat → Except PErr (List HNode)
  | [], _ => .ok []
  | (_, anc) :: rest, seen =>
    match findParentClaim anc with
    | none => .error .assertionError
    | some claim =>
      match find_claims_go rest (claim.nodeId :: seen) with
      | .error e => .error e
      | .ok tl => .ok (if claim.nodeId ∈ seen then tl else claim :: tl)

/-- `find_claims(claims_tag)`: unique nearest `claim`-classed ancestors
of the `claim-text` leaves, in first-seen document order.  `ctAnc` is
the ancestor chain of `claims_tag` itself (nearest first). -/
def find_claims (ct : HNode) (ctAnc : List HNode) : Except PErr (List HNode) :=
  find_claims_go (findClaimTextInList (ct :: ctAnc) ct.children) []

/-- `dict(parse_claim(claim))`: non-class attributes plus the claim's
stripped text. -/
def parse_claim (c : HNode) : Record :=
  buildDict (attrs_except_class c ++ [("text", .str c.getTextStrip)])

/-- `parse_claims(section)`: the `claims`-classed descendant's non-class
attributes plus the parsed claim list.  `sanc` is the ancestor chain of
the section (nearest first). -/
def parse_claims (s : HNode) (sanc : List HNode) : Except PErr Record :=
  match findClassInList "claims" (s :: sanc) s.children with
  | none => .error .assertionError
  | some (ct, ctAnc) =>
    match find_claims ct ctAnc with
    | .error e => .error e
    | .ok claimTags =>
      .ok (buildDict (attrs_except_class ct
            ++ [("claims", .arr (claimTags.map (fun c => .obj (parse_claim c))))]))

/-- The loop body of `parse_sections`: for each found section, read its
`itemprop` (`KeyError` when absent, `assert` failure when not a string)
and dispatch to the sub-parser named by it, storing the result (or
`null` for unrecognized names). -/
def parse_sections_go : List (HNode × List HNode) → Record → Except PErr Record
  | [], cur => .ok cur
  | (s, sanc) :: rest, cur =>
    match s.getAttr "itemprop" with
    | none => .error .keyError
    | some (.many _) => .error .assertionError
    | some (.one pname) =>
      let res : Except PErr Value :=
        if pname == "abstract" then (parse_abstract s).map .obj
        else if pname == "description" then (parse_description s).map .obj
        else if pname == "claims" then (parse_claims s sanc).map .obj
        else .ok .null
      match res with
      | .error e => .error e
      | .ok v => parse_sections_go rest (upsert cur pname v)

/-- `parse_sections(article, current_node)`: dispatch every
`section[itemscope]` descendant of the article.  `anc` is the article's
ancestor chain. -/
def parse_sections (article : HNode) (anc : List HNode) (cur : Record) :
    Except PErr Record :=
  parse_sections_go (findSectionsInList (article :: anc) article.children) cur

/-- `root.find(name)` returning the match with its ancestor chain
(nearest first), for threading ancestors into the section parsers. -/
def findNamedWithAnc (nm : String) (anc : List HNode) : List HNode → Option (HNode × List HNode)
  | [] => none
  | .text _ :: rest => findNamedWithAnc nm anc rest
  | .elem tid n attrs cs :: rest =>
    if n == nm then some (.elem tid n attrs cs, anc)
    else
      match findNamedWithAnc nm (.elem tid n attrs cs :: anc) cs with
      | some r => some r
      | none => findNamedWithAnc nm anc rest
termination_by ts => sizeOf ts
decreasing_by all_goals simp_wf <;> omega

/-- `parse(html)`: find the `html` root and its `article` descendant
(`assert` failures when absent), walk the article with `parse_tag`, then
dispatch the sections.  The document is the already-parsed soup's
top-level node list; `hack` is the process-wide visited set, threaded in
and out.  The article is passed with an empty following-sibling list:
`parse_tag` only reads the siblings of a `dt`/`h2` tag, and the article
tag's name is `article`. -/
def parse (doc : List HNode) (hack : List Nat) : Except PErr (List Nat × Record) :=
  match findNamedWithAnc "html" [] doc with
  | none => .error .assertionError
  | some (root, rootAnc) =>
    match findNamedWithAnc "article" (root :: rootAnc) root.children with
    | none => .error .assertionError
    | some (article, artAnc) =>
      match parse_tag article [] hack [] with
      | .error e => .error e
      | .ok (hk, data) =>
        match parse_sections article artAnc data with
        | .error e => .error e
        | .ok data2 => .ok (hk, data2)

/-! ## Spec-side comparison definitions

These definitions follow the specification's words (not the source) and
are used to compare the source behaviour against the spec where a claim
describes the intended output independently of the code. -/

/-- From the spec's words (claim C3): uppercase only the first character
of a word and leave the remaining characters unchanged. -/
def specUpperFirstKeepRest (s : String) : String :=
  match s.data with
  | [] => ""
  | c :: cs => String.mk (c.toUpper :: cs)

/-- From the spec's words (claim C3): the label normalizer on a text all
of whose whitespace-split words are retained — lowercase the first word
entirely, uppercase only the first character of every later word leaving
its remaining characters unchanged, concatenate with no separator. -/
def specLabelNormalize (raw : String) : String :=
  match pySplit (pyStrip raw) with
  | [] => ""
  | w :: ws => pyLower w ++ strJoin (ws.map specUpperFirstKeepRest)

/-- The label normalizer as the claim must be amended: every retained
word after the first is transformed by Python `capitalize()` (first
character uppercased, remaining characters lowercased), not by an
uppercase-first-keep-rest transform. -/
def specLabelNormalizeAmended (raw : String) : String :=
  match pySplit (pyStrip raw) with
  | [] => ""
  | w :: ws => pyLower w ++ strJoin (ws.map pyCapitalize)

mutual
/-- From the spec's words (claim C7): partition a target list into
parts.  The part opened with heading `h` collects the lines up to the
next heading element (possibly none); each heading element starts a new
part; the part open when the list ends is still emitted. -/
def specDescParts (h : String) (ts : List HNode) : List Value :=
  descPart h ((ts.takeWhile (fun t => !(t.name == "heading"))).map descLine)
    :: specDescPartsTail ts
termination_by (ts.length, 1)

/-- The parts after the next heading element (none when no heading
remains). -/
def specDescPartsTail (ts : List HNode) : List Value :=
  match heq : ts.dropWhile (fun t => !(t.name == "heading")) with
  | [] => []
  | hd :: rest => specDescParts hd.getTextStrip rest
termination_by (ts.length, 0)
decreasing_by
  have hle := (List.IsSuffix.sublist
    (List.dropWhile_suffix (l := ts) (fun t => !(t.name == "heading")))).length_le
  rw [heq] at hle
  simp only [List.length_cons] at hle
  apply Prod.Lex.left
  omega
end

/-- From the spec's words (claim C6): first-seen deduplication by node
identity, keeping document order. -/
def firstSeenDedup : List HNode → List Nat → List HNode
  | [], _ => []
  | c :: cs, seen =>
    if c.nodeId ∈ seen then firstSeenDedup cs seen
    else c :: firstSeenDedup cs (c.nodeId :: seen)

/-- Whether an element named `nm` occurs anywhere in a node list (the
node itself or any descendant). -/
def hasNamed (nm : String) : List HNode → Bool
  | [] => false
  | .text _ :: rest => hasNamed nm rest
  | .elem _ n _ cs :: rest => n == nm || hasNamed nm cs || hasNamed nm rest

/-! ## Concrete example documents used by witnesses and counterexamples -/

/-- A minimal patent document: one `dt` group header, two accumulating
`span` properties, one scoped `abstract` section. -/
def exDoc : List HNode :=
  [.elem 1 "html" [] [.elem 2 "body" [] [.elem 3 "article" [] [
    .elem 4 "dt" [] [.text "Inventor:"],
    .elem 5 "span" [("itemprop", .one "name"), ("repeat", .one "")] [.text "Alice"],
    .elem 6 "span" [("itemprop", .one "name"), ("repeat", .one "")] [.text "Bob"],
    .elem 7 "section" [("itemscope", .one ""), ("itemprop", .one "abstract")] [
      .elem 8 "abstract" [("id", .one "abs")] [.text "A widget."]]
  ]]]]

/-- A document with one `html` root, one `article` and a single property
span, used to exhibit the cross-call behaviour of the process-wide
visited set. -/
def c9doc : List HNode :=
  [.elem 1 "html" [] [.elem 2 "article" [] [
    .elem 3 "span" [("itemprop", .one "num")] [.text "7"]]]]

/-- A document whose article holds a plain (non-accumulating) property
followed by an accumulating one at the same property name. -/
def c10doc (p a b : String) : List HNode :=
  [.elem 1 "html" [] [.elem 2 "article" [] [
    .elem 3 "span" [("itemprop", .one p)] [.text a],
    .elem 4 "span" [("itemprop", .one p), ("repeat", .one "")] [.text b]
  ]]]

/-- A `claims`-classed wrapper whose two `claim` wrappers hold their
`claim-text` leaves at different nesting depths (depth 2 and depth 4). -/
def c6claimsTag : HNode :=
  .elem 21 "div" [("class", .many ["claims"])] [
    .elem 22 "div" [("class", .many ["claim"]), ("id", .one "CLM-1")] [
      .elem 23 "div" [("class", .many ["claim-text"])] [.text "First claim."]],
    .elem 24 "div" [("class", .many ["claim"]), ("id", .one "CLM-2")] [
      .elem 25 "div" [] [
        .elem 26 "div" [] [
          .elem 27 "div" [("class", .many ["claim-text"])] [.text "Second claim, outer."],
          .elem 28 "div" [("class", .many ["claim-text"])] [.text "Second claim, inner."]]]]]

/-- The claims section wrapping `c6claimsTag`. -/
def c6sec : HNode :=
  .elem 20 "section" [("itemscope", .one ""), ("itemprop", .one "claims")] [c6claimsTag]

/-- A description section with two headings and three lines, one line
before the first heading. -/
def c7sec : HNode :=
  .elem 30 "section" [("itemscope", .one ""), ("itemprop", .one "description")] [
    .elem 31 "div" [("class", .many ["description"]), ("id", .one "desc")] [
      .elem 32 "div" [("class", .many ["description-line"]), ("num", .one "0001")] [.text "Preamble line."],
      .elem 33 "heading" [] [.text "FIELD"],
      .elem 34 "div" [("class", .many ["description-line"]), ("num", .one "0002")] [.text "Field line."],
      .elem 35 "heading" [] [.text "BACKGROUND"],
      .elem 36 "div" [("class", .many ["description-line"])] [.text "Background line."]]]

/-- An abstract section whose `abstract` element carries a `class`
attribute. -/
def c4sec : HNode :=
  .elem 40 "section" [("itemscope", .one ""), ("itemprop", .one "abstract")] [
    .elem 41 "abstract" [("class", .many ["abstract-text"]), ("id", .one "abs")] [.text "Text."]]

/-- An annotated element with an empty `content` attribute and a
non-empty `href` attribute. -/
def c5tag : HNode :=
  .elem 50 "a" [("itemprop", .one "link"), ("content", .one ""), ("href", .one "http://x")] [.text "t"]

/-- A `dt` header whose label has a second word with an internal
uppercase letter. -/
def c3tag : HNode :=
  .elem 60 "dt" [] [.text "legal aB"]

/-! ## General lemmas about the record operations and the walker -/

theorem recLookup_upsert_self (r : Record) (k : String) (v : Value) :
    recLookup (upsert r k v) k = some v := by
  induction r with
  | nil => simp [upsert, recLookup, List.find?]
  | cons hd tl ih =>
    by_cases hk : hd.1 = k
    · obtain ⟨k', v'⟩ := hd
      simp only at hk
      simp [upsert, recLookup, List.find?, hk]
    · obtain ⟨k', v'⟩ := hd
      simp only at hk
      have hk' : (k' == k) = false := by simpa using hk
      simp only [upsert, hk', Bool.false_eq_true, if_false]
      simp only [recLookup, List.find?, hk'] at *
      exact ih

theorem upsert_of_not_mem (r : Record) (k : String) (v : Value)
    (h : ∀ p ∈ r, p.1 ≠ k) : upsert r k v = r ++ [(k, v)] := by
  induction r with
  | nil => simp [upsert]
  | cons hd tl ih =>
    have hk' : (hd.1 == k) = false := by
      simpa using h hd (List.mem_cons_self _ _)
    obtain ⟨k', v'⟩ := hd
    simp only at hk'
    simp only [upsert, hk', Bool.false_eq_true, if_false, List.cons_append]
    rw [ih (fun p hp => h p (List.mem_cons_of_mem _ hp))]

/-! Step lemmas: one closed-form equation for each branch of the walker,
used both for the general claims and to evaluate the walker on concrete
documents (the well-founded definitions do not reduce definitionally). -/

theorem parse_tag_text (s : String) (rest : List HNode) (hack : List Nat) (cur : Record) :
    parse_tag (.text s) rest hack cur = .ok (hack, cur) := by
  rw [parse_tag]

theorem parse_tag_visited (tid : Nat) (nm : String) (attrs : List (String × AttrV))
    (cs : List HNode) (rest : List HNode) (hack : List Nat) (cur : Record)
    (h : tid ∈ hack) :
    parse_tag (.elem tid nm attrs cs) rest hack cur = .ok (hack, cur) := by
  rw [parse_tag, if_pos h]

theorem parse_tag_no_itemprop (tid : Nat) (nm : String) (attrs : List (String × AttrV))
    (cs : List HNode) (rest : List HNode) (hack : List Nat) (cur : Record)
    (hv : tid ∉ hack) (hs : START_TAGS.contains nm = false)
    (hip : (HNode.elem tid nm attrs cs).getAttr "itemprop" = none) :
    parse_tag (.elem tid nm attrs cs) rest hack cur = parse_children cs (tid :: hack) cur := by
  rw [parse_tag, if_neg hv]
  simp only [hs, Bool.false_eq_true, if_false]
  rw [hip]

theorem parse_tag_section_skip (tid : Nat) (attrs : List (String × AttrV))
    (cs : List HNode) (rest : List HNode) (hack : List Nat) (cur : Record) (p : String)
    (hv : tid ∉ hack)
    (hip : (HNode.elem tid "section" attrs cs).getAttr "itemprop" = some (.one p))
    (hp : p ≠ "") :
    parse_tag (.elem tid "section" attrs cs) rest hack cur = .ok (tid :: hack, cur) := by
  rw [parse_tag, if_neg hv]
  simp only [START_TAGS, List.contains_cons, List.contains_nil]
  simp only [show (("section" == "dt") || (("section" == "h2") || false)) = false from by decide,
    Bool.false_eq_true, if_false]
  rw [hip]
  simp [AttrV.truthy, hp]

theorem parse_tag_plain (tid : Nat) (nm : String) (attrs : List (String × AttrV))
    (cs : List HNode) (rest : List HNode) (hack hk2 : List Nat) (cur : Record)
    (p : String) (v : Value)
    (hv : tid ∉ hack) (hs : START_TAGS.contains nm = false)
    (hip : (HNode.elem tid nm attrs cs).getAttr "itemprop" = some (.one p))
    (hp : p ≠ "") (hsec : nm ≠ "section")
    (hrep : (HNode.elem tid nm attrs cs).hasAttr "repeat" = false)
    (hpv : property_value p (.elem tid nm attrs cs) (tid :: hack) = .ok (hk2, v)) :
    parse_tag (.elem tid nm attrs cs) rest hack cur = .ok (hk2, upsert cur p v) := by
  rw [parse_tag, if_neg hv]
  simp only [hs, Bool.false_eq_true, if_false]
  rw [hip]
  simp only [show (AttrV.one p).truthy = true from by simp [AttrV.truthy, hp],
    Bool.not_true, Bool.false_eq_true, if_false,
    show (nm == "section") = false from by simpa using hsec]
  rw [hpv]
  simp only [hrep, Bool.false_eq_true, if_false]

theorem parse_tag_repeat (tid : Nat) (nm : String) (attrs : List (String × AttrV))
    (cs : List HNode) (rest : List HNode) (hack hk2 : List Nat) (cur : Record)
    (p : String) (v : Value)
    (hv : tid ∉ hack) (hs : START_TAGS.contains nm = false)
    (hip : (HNode.elem tid nm attrs cs).getAttr "itemprop" = some (.one p))
    (hp : p ≠ "") (hsec : nm ≠ "section")
    (hrep : (HNode.elem tid nm attrs cs).hasAttr "repeat" = true)
    (hpv : property_value p (.elem tid nm attrs cs) (tid :: hack) = .ok (hk2, v)) :
    parse_tag (.elem tid nm attrs cs) rest hack cur =
      match recLookup cur p with
      | none => .ok (hk2, upsert cur p (.arr [v]))
      | some (.arr vs) => .ok (hk2, upsert cur p (.arr (vs ++ [v])))
      | some _ => .error .attributeError := by
  rw [parse_tag, if_neg hv]
  simp only [hs, Bool.false_eq_true, if_false]
  rw [hip]
  simp only [show (AttrV.one p).truthy = true from by simp [AttrV.truthy, hp],
    Bool.not_true, Bool.false_eq_true, if_false,
    show (nm == "section") = false from by simpa using hsec]
  rw [hpv]
  simp only [hrep, if_true]

theorem property_value_scoped (p : String) (tid : Nat) (nm : String)
    (attrs : List (String × AttrV)) (cs : List HNode) (hack : List Nat)
    (hsc : (HNode.elem tid nm attrs cs).hasAttr "itemscope" = true) :
    property_value p (.elem tid nm attrs cs) hack =
      match parse_children cs hack [] with
      | .error e => .error e
      | .ok (hk, child) => .ok (hk, .obj child) := by
  rw [property_value]
  simp only [hsc, if_true]

theorem property_value_content (p : String) (tid : Nat) (nm : String)
    (attrs : List (String × AttrV)) (cs : List HNode) (hack : List Nat) (av : AttrV)
    (hsc : (HNode.elem tid nm attrs cs).hasAttr "itemscope" = false)
    (hc : (HNode.elem tid nm attrs cs).truthyAttr "content" = some av) :
    property_value p (.elem tid nm attrs cs) hack = .ok (hack, av.toValue) := by
  rw [property_value]
  simp only [hsc, Bool.false_eq_true, if_false]
  rw [hc]

theorem property_value_string (p : String) (tid : Nat) (nm : String)
    (attrs : List (String × AttrV)) (cs : List HNode) (hack : List Nat) (s : String)
    (hsc : (HNode.elem tid nm attrs cs).hasAttr "itemscope" = false)
    (hco : (HNode.elem tid nm attrs cs).truthyAttr "content" = none)
    (hhr : (HNode.elem tid nm attrs cs).truthyAttr "href" = none)
    (hsr : (HNode.elem tid nm attrs cs).truthyAttr "src" = none)
    (hpn : p ≠ "content")
    (hst : HNode.string (.elem tid nm attrs cs) = some s) :
    property_value p (.elem tid nm attrs cs) hack = .ok (hack, .str (pyStrip s)) := by
  rw [property_value]
  simp only [hsc, Bool.false_eq_true, if_false]
  rw [hco, hhr, hsr]
  simp only [show (p == "content") = false from by simpa using hpn, Bool.false_eq_true, if_false]
  rw [hst]

theorem property_value_getText (p : String) (tid : Nat) (nm : String)
    (attrs : List (String × AttrV)) (cs : List HNode) (hack : List Nat)
    (hsc : (HNode.elem tid nm attrs cs).hasAttr "itemscope" = false)
    (hco : (HNode.elem tid nm attrs cs).truthyAttr "content" = none)
    (hhr : (HNode.elem tid nm attrs cs).truthyAttr "href" = none)
    (hsr : (HNode.elem tid nm attrs cs).truthyAttr "src" = none)
    (hpn : p = "content") :
    property_value p (.elem tid nm attrs cs) hack
      = .ok (hack, .str (HNode.getTextStrip (.elem tid nm attrs cs))) := by
  rw [property_value]
  simp only [hsc, Bool.false_eq_true, if_false]
  rw [hco, hhr, hsr]
  simp only [show (p == "content") = true from by simpa using hpn, if_true]

theorem parse_children_nil (hack : List Nat) (cur : Record) :
    parse_children [] hack cur = .ok (hack, cur) := by
  rw [parse_children.eq_def]

theorem parse_children_cons_elem (tid : Nat) (nm : String) (attrs : List (String × AttrV))
    (cs : List HNode) (rest : List HNode) (hack hk : List Nat) (cur cur2 : Record)
    (h : parse_tag (.elem tid nm attrs cs) rest hack cur = .ok (hk, cur2)) :
    parse_children (.elem tid nm attrs cs :: rest) hack cur = parse_children rest hk cur2 := by
  rw [parse_children, h]

theorem parse_children_cons_err (tid : Nat) (nm : String) (attrs : List (String × AttrV))
    (cs : List HNode) (rest : List HNode) (hack : List Nat) (cur : Record) (e : PErr)
    (h : parse_tag (.elem tid nm attrs cs) rest hack cur = .error e) :
    parse_children (.elem tid nm attrs cs :: rest) hack cur = .error e := by
  rw [parse_children, h]

/-- `parse` decomposed: when the `html` root and the `article` are found
and both phases succeed, the result is the walked-then-sectioned
record. -/
theorem parse_eq (doc : List HNode) (hack : List Nat) (root article : HNode)
    (rootAnc artAnc : List HNode) (hk : List Nat) (data data2 : Record)
    (h1 : findNamedWithAnc "html" [] doc = some (root, rootAnc))
    (h2 : findNamedWithAnc "article" (root :: rootAnc) root.children = some (article, artAnc))
    (h3 : parse_tag article [] hack [] = .ok (hk, data))
    (h4 : parse_sections article artAnc data = .ok data2) :
    parse doc hack = .ok (hk, data2) := by
  rw [parse, h1]
  simp only []
  rw [h2]
  simp only []
  rw [h3]
  simp only []
  rw [h4]

/-- `parse` propagates an exception raised during the article walk. -/
theorem parse_err_walk (doc : List HNode) (hack : List Nat) (root article : HNode)
    (rootAnc artAnc : List HNode) (e : PErr)
    (h1 : findNamedWithAnc "html" [] doc = some (root, rootAnc))
    (h2 : findNamedWithAnc "article" (root :: rootAnc) root.children = some (article, artAnc))
    (h3 : parse_tag article [] hack [] = .error e) :
    parse doc hack = .error e := by
  rw [parse, h1]
  simp only []
  rw [h2]
  simp only []
  rw [h3]

theorem parse_sections_elem (tid : Nat) (nm : String) (attrs : List (String × AttrV))
    (cs : List HNode) (anc : List HNode) (cur : Record) :
    parse_sections (.elem tid nm attrs cs) anc cur
      = parse_sections_go (findSectionsInList (.elem tid nm attrs cs :: anc) cs) cur := by
  rw [parse_sections]
  simp only [HNode.children]

/-- `parse_tag` reads a tag's following siblings only in the group-header
branch: for a non-header tag the result does not depend on them. -/
theorem parse_tag_rest_irrel (tid : Nat) (nm : String) (attrs : List (String × AttrV))
    (cs : List HNode) (r1 r2 : List HNode) (hack : List Nat) (cur : Record)
    (h : START_TAGS.contains nm = false) :
    parse_tag (.elem tid nm attrs cs) r1 hack cur =
      parse_tag (.elem tid nm attrs cs) r2 hack cur := by
  rw [parse_tag, parse_tag]
  simp only [h, Bool.false_eq_true, if_false]

/-- `parse_siblings` over a run of non-header siblings followed by a
header behaves exactly like `parse_siblings` over the run alone: the
walk stops before the header and nothing after it is consumed. -/
theorem parse_siblings_stop (h2 : HNode) (others : List HNode) (hh2 : isStartTag h2 = true) :
    ∀ (mids : List HNode) (hack : List Nat) (cur : Record),
      (∀ m ∈ mids, isStartTag m = false) →
      parse_siblings (mids ++ h2 :: others) hack cur = parse_siblings mids hack cur := by
  intro mids
  induction mids with
  | nil =>
    intro hack cur _
    match h2, hh2 with
    | .elem tid nm attrs cs, hh2 =>
      rw [List.nil_append, parse_siblings, parse_siblings]
      simp only [isStartTag] at hh2
      simp only [hh2, if_true]
  | cons m ms ih =>
    intro hack cur hm
    match m with
    | .text s =>
      rw [List.cons_append, parse_siblings, parse_siblings]
      exact ih hack cur (fun x hx => hm x (List.mem_cons_of_mem _ hx))
    | .elem tid nm attrs cs =>
      have hnm : START_TAGS.contains nm = false := by
        have := hm (.elem tid nm attrs cs) (List.mem_cons_self _ _)
        simpa [isStartTag] using this
      rw [List.cons_append, parse_siblings, parse_siblings]
      simp only [hnm, Bool.false_eq_true, if_false]
      rw [parse_tag_rest_irrel tid nm attrs cs (ms ++ h2 :: others) ms hack cur hnm]
      match parse_tag (.elem tid nm attrs cs) ms hack cur with
      | .error e => rfl
      | .ok (hk, cur2) =>
        exact ih hk cur2 (fun x hx => hm x (List.mem_cons_of_mem _ hx))

/-! ## Claim C1 -/

/-- C1: a group header (`dt`/`h2`) followed by a run of non-header
siblings and then another header stores under the first header's
normalized label exactly the record produced by walking that run alone:
the walk is a function of `mids` only, so neither the second header nor
anything after it contributes to the first header's nested record, and
none of the run's properties can end up under the second header's key
(whose own group is built later from its own following siblings). -/
theorem sibling_grouping (tid : Nat) (nm : String) (attrs : List (String × AttrV))
    (cs : List HNode) (mids : List HNode) (h2 : HNode) (others : List HNode)
    (hack : List Nat) (cur : Record)
    (hstart : START_TAGS.contains nm = true)
    (hvis : tid ∉ hack)
    (hm : ∀ m ∈ mids, isStartTag m = false)
    (hh2 : isStartTag h2 = true) :
    parse_tag (.elem tid nm attrs cs) (mids ++ h2 :: others) hack cur =
      match parse_siblings mids (tid :: hack) [] with
      | .error e => .error e
      | .ok (hk2, grp) =>
        .ok (hk2, upsert cur (parse_label (.elem tid nm attrs cs)) (.obj grp)) := by
  rw [parse_tag]
  rw [if_neg hvis]
  simp only [hstart, if_true]
  rw [parse_siblings_stop h2 others hh2 mids (tid :: hack) [] hm]

/-- C1 witness: a concrete `dt` header followed by two property spans
and a text node, then an `h2` header with its own following property:
the group record under the first header is the walk of the two spans
alone. -/
theorem sibling_grouping_witness :
    (∀ m ∈ [HNode.elem 11 "span" [("itemprop", .one "name")] [.text "Alice"],
            HNode.text " ",
            HNode.elem 12 "span" [("itemprop", .one "role")] [.text "Bob"]],
       isStartTag m = false) ∧
    parse_tag (.elem 10 "dt" [] [.text "Inventor:"])
        ([HNode.elem 11 "span" [("itemprop", .one "name")] [.text "Alice"],
          HNode.text " ",
          HNode.elem 12 "span" [("itemprop", .one "role")] [.text "Bob"]]
          ++ HNode.elem 13 "h2" [] [.text "Next"]
             :: [HNode.elem 14 "span" [("itemprop", .one "other")] [.text "X"]])
        [] [] =
      match parse_siblings
          [HNode.elem 11 "span" [("itemprop", .one "name")] [.text "Alice"],
           HNode.text " ",
           HNode.elem 12 "span" [("itemprop", .one "role")] [.text "Bob"]]
          [10] [] with
      | .error e => .error e
      | .ok (hk2, grp) =>
        .ok (hk2, upsert [] (parse_label (.elem 10 "dt" [] [.text "Inventor:"])) (.obj grp)) :=
  ⟨by decide,
   sibling_grouping 10 "dt" [] [.text "Inventor:"]
     [HNode.elem 11 "span" [("itemprop", .one "name")] [.text "Alice"],
      HNode.text " ",
      HNode.elem 12 "span" [("itemprop", .one "role")] [.text "Bob"]]
     (HNode.elem 13 "h2" [] [.text "Next"])
     [HNode.elem 14 "span" [("itemprop", .one "other")] [.text "X"]]
     [] [] (by decide) (by decide) (by decide) (by decide)⟩

/-! ## Claim C9 -/

/-- C9: the claim asserts `parse` is deterministic across two successive
invocations in the same process.  The code keeps the visited set in the
process-wide global `hack` that is never cleared, and keys it by
`id(tag)`, a memory address that a second invocation's freshly parsed
tree can reuse after the first tree is garbage collected.  Modelling id
reuse by running `parse` a second time on the same tree with the
`hack` contents returned by the first run: the first run extracts the
property record, the second skips the entire article walk and returns an
empty record — the two runs are not byte-identical, refuting the claim
on the code.  (The spec itself flags this global set as a latent defect
to be re-architected into a per-call set.) -/
theorem global_visited_nondeterminism :
    parse c9doc [] = .ok ([3, 2], [("num", .str "7")]) ∧
    parse c9doc [3, 2] = .ok ([3, 2], []) ∧
    ([("num", Value.str "7")] : Record) ≠ ([] : Record) := by
  have h1 : findNamedWithAnc "html" [] c9doc
      = some (.elem 1 "html" [] [.elem 2 "article" [] [
          .elem 3 "span" [("itemprop", .one "num")] [.text "7"]]], []) := by
    simp [findNamedWithAnc, c9doc]
  have h2 : findNamedWithAnc "article"
      ((HNode.elem 1 "html" [] [.elem 2 "article" [] [
          .elem 3 "span" [("itemprop", .one "num")] [.text "7"]]]) :: [])
      (HNode.children (.elem 1 "html" [] [.elem 2 "article" [] [
          .elem 3 "span" [("itemprop", .one "num")] [.text "7"]]]))
      = some (.elem 2 "article" [] [.elem 3 "span" [("itemprop", .one "num")] [.text "7"]],
          [.elem 1 "html" [] [.elem 2 "article" [] [
            .elem 3 "span" [("itemprop", .one "num")] [.text "7"]]]]) := by
    simp [findNamedWithAnc, HNode.children]
  have hsect : findSectionsInList
      ((HNode.elem 2 "article" [] [.elem 3 "span" [("itemprop", .one "num")] [.text "7"]]) ::
        [.elem 1 "html" [] [.elem 2 "article" [] [
          .elem 3 "span" [("itemprop", .one "num")] [.text "7"]]]])
      [.elem 3 "span" [("itemprop", .one "num")] [.text "7"]] = [] := by
    simp [findSectionsInList, HNode.hasAttr, HNode.getAttr, HNode.attrs, List.find?]
  have h4 : ∀ data : Record, parse_sections
      (.elem 2 "article" [] [.elem 3 "span" [("itemprop", .one "num")] [.text "7"]])
      [.elem 1 "html" [] [.elem 2 "article" [] [
        .elem 3 "span" [("itemprop", .one "num")] [.text "7"]]]] data = .ok data := by
    intro data
    rw [parse_sections_elem, hsect]
    rfl
  refine ⟨?_, ?_, by simp⟩
  · have hpv : property_value "num" (.elem 3 "span" [("itemprop", .one "num")] [.text "7"]) [3, 2]
        = .ok ([3, 2], .str "7") := by
      have h := property_value_string "num" 3 "span" [("itemprop", .one "num")] [.text "7"] [3, 2] "7"
        (by decide) (by decide) (by decide) (by decide) (by decide) (by decide)
      rw [show pyStrip "7" = "7" from by decide] at h
      exact h
    have hspan : parse_tag (.elem 3 "span" [("itemprop", .one "num")] [.text "7"]) [] [2] []
        = .ok ([3, 2], [("num", .str "7")]) := by
      have h := parse_tag_plain 3 "span" [("itemprop", .one "num")] [.text "7"] [] [2] [3, 2] []
        "num" (.str "7") (by decide) (by decide) (by decide) (by decide) (by decide) (by decide) hpv
      rw [show upsert [] "num" (Value.str "7") = [("num", Value.str "7")] from rfl] at h
      exact h
    have h3 : parse_tag (.elem 2 "article" []
          [.elem 3 "span" [("itemprop", .one "num")] [.text "7"]]) [] [] []
        = .ok ([3, 2], [("num", .str "7")]) := by
      rw [parse_tag_no_itemprop 2 "article" [] [.elem 3 "span" [("itemprop", .one "num")] [.text "7"]]
        [] [] [] (by decide) (by decide) (by decide)]
      rw [parse_children_cons_elem 3 "span" [("itemprop", .one "num")] [.text "7"] [] [2] [3, 2]
        [] [("num", .str "7")] hspan]
      exact parse_children_nil _ _
    exact parse_eq c9doc [] _ _ _ _ [3, 2] [("num", .str "7")] [("num", .str "7")] h1 h2 h3 (h4 _)
  · have h3 : parse_tag (.elem 2 "article" []
          [.elem 3 "span" [("itemprop", .one "num")] [.text "7"]]) [] [3, 2] []
        = .ok ([3, 2], []) :=
      parse_tag_visited 2 "article" _ _ [] [3, 2] [] (by decide)
    exact parse_eq c9doc [3, 2] _ _ _ _ [3, 2] [] [] h1 h2 h3 (h4 _)

/-! ## Claim C2 -/

/-- C2: two sibling elements sharing the same property name, both
carrying the accumulation marker, with resolved values `a` then `b` in
document order, bind the property to the list `[a, b]` in document
order (the first append creates the list, the second appends), not to
the single overwritten value `b`. -/
theorem accumulation_pair (tid1 tid2 : Nat) (nm1 nm2 p a b : String)
    (attrs1 attrs2 : List (String × AttrV)) (cs1 cs2 : List HNode)
    (hack : List Nat) (cur : Record)
    (hne : tid1 ≠ tid2) (hv1 : tid1 ∉ hack) (hv2 : tid2 ∉ hack)
    (hs1 : START_TAGS.contains nm1 = false) (hs2 : START_TAGS.contains nm2 = false)
    (hsec1 : nm1 ≠ "section") (hsec2 : nm2 ≠ "section")
    (hp : p ≠ "")
    (hip1 : (HNode.elem tid1 nm1 attrs1 cs1).getAttr "itemprop" = some (.one p))
    (hip2 : (HNode.elem tid2 nm2 attrs2 cs2).getAttr "itemprop" = some (.one p))
    (hr1 : (HNode.elem tid1 nm1 attrs1 cs1).hasAttr "repeat" = true)
    (hr2 : (HNode.elem tid2 nm2 attrs2 cs2).hasAttr "repeat" = true)
    (hsc1 : (HNode.elem tid1 nm1 attrs1 cs1).hasAttr "itemscope" = false)
    (hsc2 : (HNode.elem tid2 nm2 attrs2 cs2).hasAttr "itemscope" = false)
    (hc1 : (HNode.elem tid1 nm1 attrs1 cs1).truthyAttr "content" = some (.one a))
    (hc2 : (HNode.elem tid2 nm2 attrs2 cs2).truthyAttr "content" = some (.one b))
    (hcur : recLookup cur p = none) :
    parse_children [.elem tid1 nm1 attrs1 cs1, .elem tid2 nm2 attrs2 cs2] hack cur
        = .ok (tid2 :: tid1 :: hack,
            upsert (upsert cur p (.arr [.str a])) p (.arr [.str a, .str b]))
      ∧ recLookup (upsert (upsert cur p (.arr [.str a])) p (.arr [.str a, .str b])) p
        = some (.arr [.str a, .str b]) := by
  have hpv1 : property_value p (.elem tid1 nm1 attrs1 cs1) (tid1 :: hack)
      = .ok (tid1 :: hack, .str a) := by
    have h := property_value_content p tid1 nm1 attrs1 cs1 (tid1 :: hack) (.one a) hsc1 hc1
    simpa [AttrV.toValue] using h
  have hpv2 : property_value p (.elem tid2 nm2 attrs2 cs2) (tid2 :: tid1 :: hack)
      = .ok (tid2 :: tid1 :: hack, .str b) := by
    have h := property_value_content p tid2 nm2 attrs2 cs2 (tid2 :: tid1 :: hack) (.one b) hsc2 hc2
    simpa [AttrV.toValue] using h
  have step1 : parse_tag (.elem tid1 nm1 attrs1 cs1) [.elem tid2 nm2 attrs2 cs2] hack cur
      = .ok (tid1 :: hack, upsert cur p (.arr [.str a])) := by
    have h := parse_tag_repeat tid1 nm1 attrs1 cs1 [.elem tid2 nm2 attrs2 cs2] hack
      (tid1 :: hack) cur p (.str a) hv1 hs1 hip1 hp hsec1 hr1 hpv1
    rw [hcur] at h
    exact h
  have hv2' : tid2 ∉ tid1 :: hack := by
    intro hmem
    rcases List.mem_cons.mp hmem with h | h
    · exact hne h.symm
    · exact hv2 h
  have step2 : parse_tag (.elem tid2 nm2 attrs2 cs2) [] (tid1 :: hack)
        (upsert cur p (.arr [.str a]))
      = .ok (tid2 :: tid1 :: hack,
          upsert (upsert cur p (.arr [.str a])) p (.arr [.str a, .str b])) := by
    have h := parse_tag_repeat tid2 nm2 attrs2 cs2 [] (tid1 :: hack)
      (tid2 :: tid1 :: hack) (upsert cur p (.arr [.str a])) p (.str b) hv2' hs2 hip2 hp hsec2 hr2 hpv2
    rw [recLookup_upsert_self] at h
    exact h
  refine ⟨?_, recLookup_upsert_self _ _ _⟩
  rw [parse_children_cons_elem _ _ _ _ _ _ _ _ _ step1,
    parse_children_cons_elem _ _ _ _ _ _ _ _ _ step2]
  exact parse_children_nil _ _

/-- C2 witness: two concrete `span` siblings with `content` values `a`
and `b` accumulate to `["a", "b"]`. -/
theorem accumulation_pair_witness :
    parse_children
        [.elem 5 "span" [("itemprop", .one "name"), ("repeat", .one ""), ("content", .one "a")] [],
         .elem 6 "span" [("itemprop", .one "name"), ("repeat", .one ""), ("content", .one "b")] []]
        [] []
      = .ok ([6, 5],
          upsert (upsert [] "name" (.arr [.str "a"])) "name" (.arr [.str "a", .str "b"]))
    ∧ recLookup (upsert (upsert [] "name" (.arr [.str "a"])) "name" (.arr [.str "a", .str "b"]))
        "name" = some (.arr [.str "a", .str "b"]) :=
  accumulation_pair 5 6 "span" "span" "name" "a" "b"
    [("itemprop", .one "name"), ("repeat", .one ""), ("content", .one "a")]
    [("itemprop", .one "name"), ("repeat", .one ""), ("content", .one "b")]
    [] [] [] []
    (by decide) (by decide) (by decide) (by decide) (by decide) (by decide) (by decide)
    (by decide) (by decide) (by decide) (by decide) (by decide) (by decide) (by decide)
    (by decide) (by decide) rfl

/-! ## Claim C10 -/

/-- C10: an accumulating element whose property name is already bound to
a non-list value (here a string stored by a preceding plain assignment
at the same key) makes the walker raise (`.append` on a non-list is an
`AttributeError`), and the exception propagates out of `parse`. -/
theorem repeat_on_nonlist_raises (p a b : String) (hp : p ≠ "") :
    parse (c10doc p a b) [] = .error .attributeError := by
  have h1 : findNamedWithAnc "html" [] (c10doc p a b)
      = some (.elem 1 "html" [] [.elem 2 "article" [] [
          .elem 3 "span" [("itemprop", .one p)] [.text a],
          .elem 4 "span" [("itemprop", .one p), ("repeat", .one "")] [.text b]]], []) := by
    simp [findNamedWithAnc, c10doc]
  have h2 : findNamedWithAnc "article"
      ((HNode.elem 1 "html" [] [.elem 2 "article" [] [
          .elem 3 "span" [("itemprop", .one p)] [.text a],
          .elem 4 "span" [("itemprop", .one p), ("repeat", .one "")] [.text b]]]) :: [])
      (HNode.children (.elem 1 "html" [] [.elem 2 "article" [] [
          .elem 3 "span" [("itemprop", .one p)] [.text a],
          .elem 4 "span" [("itemprop", .one p), ("repeat", .one "")] [.text b]]]))
      = some (.elem 2 "article" [] [
          .elem 3 "span" [("itemprop", .one p)] [.text a],
          .elem 4 "span" [("itemprop", .one p), ("repeat", .one "")] [.text b]],
          [.elem 1 "html" [] [.elem 2 "article" [] [
            .elem 3 "span" [("itemprop", .one p)] [.text a],
            .elem 4 "span" [("itemprop", .one p), ("repeat", .one "")] [.text b]]]]) := by
    simp [findNamedWithAnc, HNode.children]
  have hpv1 : ∃ s, property_value p (.elem 3 "span" [("itemprop", .one p)] [.text a]) [3, 2]
      = .ok ([3, 2], .str s) := by
    by_cases hpc : p = "content"
    · exact ⟨_, property_value_getText p 3 "span" [("itemprop", .one p)] [.text a] [3, 2]
        (by simp [HNode.hasAttr, HNode.getAttr, HNode.attrs, List.find?])
        (by simp [HNode.truthyAttr, HNode.getAttr, HNode.attrs, List.find?])
        (by simp [HNode.truthyAttr, HNode.getAttr, HNode.attrs, List.find?])
        (by simp [HNode.truthyAttr, HNode.getAttr, HNode.attrs, List.find?]) hpc⟩
    · exact ⟨_, property_value_string p 3 "span" [("itemprop", .one p)] [.text a] [3, 2] a
        (by simp [HNode.hasAttr, HNode.getAttr, HNode.attrs, List.find?])
        (by simp [HNode.truthyAttr, HNode.getAttr, HNode.attrs, List.find?])
        (by simp [HNode.truthyAttr, HNode.getAttr, HNode.attrs, List.find?])
        (by simp [HNode.truthyAttr, HNode.getAttr, HNode.attrs, List.find?]) hpc
        (by simp [HNode.string])⟩
  obtain ⟨s1, hpv1⟩ := hpv1
  have hpv2 : ∃ s, property_value p
        (.elem 4 "span" [("itemprop", .one p), ("repeat", .one "")] [.text b]) (4 :: [3, 2])
      = .ok (4 :: [3, 2], .str s) := by
    by_cases hpc : p = "content"
    · exact ⟨_, property_value_getText p 4 "span" [("itemprop", .one p), ("repeat", .one "")]
        [.text b] (4 :: [3, 2])
        (by simp [HNode.hasAttr, HNode.getAttr, HNode.attrs, List.find?])
        (by simp [HNode.truthyAttr, HNode.getAttr, HNode.attrs, List.find?])
        (by simp [HNode.truthyAttr, HNode.getAttr, HNode.attrs, List.find?])
        (by simp [HNode.truthyAttr, HNode.getAttr, HNode.attrs, List.find?]) hpc⟩
    · exact ⟨_, property_value_string p 4 "span" [("itemprop", .one p), ("repeat", .one "")]
        [.text b] (4 :: [3, 2]) b
        (by simp [HNode.hasAttr, HNode.getAttr, HNode.attrs, List.find?])
        (by simp [HNode.truthyAttr, HNode.getAttr, HNode.attrs, List.find?])
        (by simp [HNode.truthyAttr, HNode.getAttr, HNode.attrs, List.find?])
        (by simp [HNode.truthyAttr, HNode.getAttr, HNode.attrs, List.find?]) hpc
        (by simp [HNode.string])⟩
  obtain ⟨s2, hpv2⟩ := hpv2
  have hstep1 : parse_tag (.elem 3 "span" [("itemprop", .one p)] [.text a])
        [.elem 4 "span" [("itemprop", .one p), ("repeat", .one "")] [.text b]] [2] []
      = .ok ([3, 2], [(p, .str s1)]) := by
    have h := parse_tag_plain 3 "span" [("itemprop", .one p)] [.text a]
      [.elem 4 "span" [("itemprop", .one p), ("repeat", .one "")] [.text b]] [2] [3, 2] []
      p (.str s1) (by decide)
      (by simp [START_TAGS])
      (by simp [HNode.getAttr, HNode.attrs, List.find?]) hp (by decide)
      (by simp [HNode.hasAttr, HNode.getAttr, HNode.attrs, List.find?]) hpv1
    rw [show upsert ([] : Record) p (Value.str s1) = [(p, Value.str s1)] from rfl] at h
    exact h
  have hlook : recLookup [(p, Value.str s1)] p = some (.str s1) := by
    simp [recLookup, List.find?]
  have hstep2 : parse_tag (.elem 4 "span" [("itemprop", .one p), ("repeat", .one "")] [.text b])
        [] [3, 2] [(p, .str s1)] = .error .attributeError := by
    have h := parse_tag_repeat 4 "span" [("itemprop", .one p), ("repeat", .one "")] [.text b]
      [] [3, 2] (4 :: [3, 2]) [(p, .str s1)] p (.str s2) (by decide)
      (by simp [START_TAGS])
      (by simp [HNode.getAttr, HNode.attrs, List.find?]) hp (by decide)
      (by simp [HNode.hasAttr, HNode.getAttr, HNode.attrs, List.find?]) hpv2
    rw [hlook] at h
    simpa using h
  have h3 : parse_tag (.elem 2 "article" [] [
        .elem 3 "span" [("itemprop", .one p)] [.text a],
        .elem 4 "span" [("itemprop", .one p), ("repeat", .one "")] [.text b]]) [] [] []
      = .error .attributeError := by
    rw [parse_tag_no_itemprop 2 "article" _ _ [] [] []
      (by decide) (by decide) (by simp [HNode.getAttr, HNode.attrs, List.find?])]
    rw [parse_children_cons_elem _ _ _ _ _ _ _ _ _ hstep1]
    exact parse_children_cons_err _ _ _ _ _ _ _ _ hstep2
  exact parse_err_walk (c10doc p a b) [] _ _ _ _ .attributeError h1 h2 h3

/-- C10 witness at a concrete property name and values. -/
theorem repeat_on_nonlist_raises_witness :
    parse (c10doc "num" "x" "y") [] = .error .attributeError :=
  repeat_on_nonlist_raises "num" "x" "y" (by decide)

/-! ## Claims C3 and C5 -/

/-- Every retained word at a positive index is transformed by Python
`capitalize()`. -/
theorem labelParts_pos (ws : List String) :
    ∀ i : Nat, i ≠ 0 → (∀ w ∈ ws, firstCharAlnum w = true) →
      labelParts i ws = ws.map pyCapitalize := by
  induction ws with
  | nil => intro i _ _; rfl
  | cons w ws ih =>
    intro i hi hw
    have hwa : firstCharAlnum w = true := hw w (List.mem_cons_self _ _)
    have hib : (i == 0) = false := by simpa using hi
    simp only [labelParts, hwa, Bool.not_true, Bool.false_eq_true, if_false, hib,
      List.map_cons]
    exact congrArg _ (ih (i + 1) (by omega) (fun x hx => hw x (List.mem_cons_of_mem _ hx)))

/-- C3 counterexample: on the label text `"legal aB"` (both words
retained), the code produces `"legalAb"` — Python `capitalize()`
lowercases the interior of the second word — while the claim (remaining
characters of a subsequent word unchanged) demands `"legalAB"`. -/
theorem label_internal_case_counterexample :
    parse_label c3tag = "legalAb" ∧
    specLabelNormalize "legal aB" = "legalAB" ∧
    parse_label c3tag ≠ specLabelNormalize "legal aB" :=
  ⟨by decide, by decide, by decide⟩

/-- C3 amended: for label texts all of whose whitespace-split words are
retained, the first word is lowercased entirely and every subsequent
word is transformed by Python `capitalize()` — first character
uppercased, remaining characters lowercased (not left unchanged) — then
concatenated with no separator. -/
theorem label_capitalize_words (t : HNode) (raw : String)
    (hs : t.string = some raw)
    (hw : ∀ w ∈ pySplit (pyStrip raw), firstCharAlnum w = true) :
    parse_label t = specLabelNormalizeAmended raw := by
  have hmain : parse_label t = strJoin (labelParts 0 (pySplit (pyStrip raw))) := by
    unfold parse_label
    rw [hs]
  rw [hmain]
  unfold specLabelNormalizeAmended
  cases hsplit : pySplit (pyStrip raw) with
  | nil => rfl
  | cons w ws =>
    rw [hsplit] at hw
    have hwa : firstCharAlnum w = true := hw w (List.mem_cons_self _ _)
    simp only [labelParts, hwa, Bool.not_true, Bool.false_eq_true, if_false,
      show ((0 : Nat) == 0) = true from rfl, if_true, strJoin]
    rw [labelParts_pos ws 1 (by omega) (fun x hx => hw x (List.mem_cons_of_mem _ hx))]

/-- C3 amended witness: a label with interior uppercase in the second
word. -/
theorem label_capitalize_words_witness :
    parse_label (.elem 61 "dt" [] [.text "Legal EVents"])
      = specLabelNormalizeAmended "Legal EVents" :=
  label_capitalize_words (.elem 61 "dt" [] [.text "Legal EVents"]) "Legal EVents"
    (by decide) (by decide)

theorem property_value_href (p : String) (tid : Nat) (nm : String)
    (attrs : List (String × AttrV)) (cs : List HNode) (hack : List Nat) (av : AttrV)
    (hsc : (HNode.elem tid nm attrs cs).hasAttr "itemscope" = false)
    (hco : (HNode.elem tid nm attrs cs).truthyAttr "content" = none)
    (hhr : (HNode.elem tid nm attrs cs).truthyAttr "href" = some av) :
    property_value p (.elem tid nm attrs cs) hack = .ok (hack, av.toValue) := by
  rw [property_value]
  simp only [hsc, Bool.false_eq_true, if_false]
  rw [hco, hhr]

/-- C5 counterexample: an element with an empty `content` attribute and
an `href` attribute.  The claim says the resolver returns the content
attribute's string (the empty string) with precedence over `href`; the
code tests the attribute with Python truthiness, so the empty string
falls through and the resolver returns the `href` value instead. -/
theorem content_empty_counterexample :
    property_value "link" c5tag [] = .ok ([], .str "http://x") ∧
    c5tag.getAttr "content" = some (.one "") ∧
    Value.str "http://x" ≠ Value.str "" := by
  refine ⟨?_, by decide, by simp⟩
  have h := property_value_href "link" 50 "a"
    [("itemprop", .one "link"), ("content", .one ""), ("href", .one "http://x")] [.text "t"] []
    (.one "http://x") (by decide) (by decide) (by decide)
  simpa [AttrV.toValue, c5tag] using h

/-- C5 amended: for elements without the scope-boundary attribute whose
`content` attribute holds a **non-empty** string, the resolver returns
that string, taking precedence over `href`, `src`,
property-name-is-content and direct text. -/
theorem content_nonempty_precedence (p : String) (tid : Nat) (nm : String)
    (attrs : List (String × AttrV)) (cs : List HNode) (hack : List Nat) (s : String)
    (hsc : (HNode.elem tid nm attrs cs).hasAttr "itemscope" = false)
    (hc : (HNode.elem tid nm attrs cs).getAttr "content" = some (.one s))
    (hne : s ≠ "") :
    property_value p (.elem tid nm attrs cs) hack = .ok (hack, .str s) := by
  have ht : (HNode.elem tid nm attrs cs).truthyAttr "content" = some (.one s) := by
    simp [HNode.truthyAttr, hc, AttrV.truthy, hne]
  have h := property_value_content p tid nm attrs cs hack (.one s) hsc ht
  simpa [AttrV.toValue] using h

/-- C5 amended witness: `content` wins over `href` and `src` when
non-empty. -/
theorem content_nonempty_precedence_witness :
    property_value "link"
      (.elem 51 "a" [("content", .one "v"), ("href", .one "h"), ("src", .one "s")] [.text "t"]) []
      = .ok ([], .str "v") :=
  content_nonempty_precedence "link" 51 "a"
    [("content", .one "v"), ("href", .one "h"), ("src", .one "s")] [.text "t"] [] "v"
    (by decide) (by decide) (by decide)

/-! ## Claim C4 -/

/-- Folding dict-assignment over fields with pairwise-distinct keys,
none already present, is plain concatenation. -/
theorem foldl_upsert_append (l : List (String × Value)) :
    ∀ r : Record, (∀ p ∈ l, ∀ q ∈ r, q.1 ≠ p.1) → (l.map Prod.fst).Nodup →
      l.foldl (fun r p => upsert r p.1 p.2) r = r ++ l := by
  induction l with
  | nil => intro r _ _; simp
  | cons p l ih =>
    intro r hdisj hnodup
    simp only [List.map_cons, List.nodup_cons] at hnodup
    simp only [List.foldl_cons]
    have hup : upsert r p.1 p.2 = r ++ [p] := by
      have h := upsert_of_not_mem r p.1 p.2
        (fun q hq => hdisj p (List.mem_cons_self _ _) q hq)
      simpa using h
    rw [hup, ih (r ++ [p]) ?_ hnodup.2]
    · simp
    · intro x hx q hq
      rcases List.mem_append.mp hq with hq | hq
      · exact hdisj x (List.mem_cons_of_mem _ hx) q hq
      · have hqp : q = p := List.mem_singleton.mp hq
        subst hqp
        intro he
        exact hnodup.1 (he ▸ List.mem_map_of_mem Prod.fst hx)

theorem buildDict_eq_self (l : List (String × Value)) (h : (l.map Prod.fst).Nodup) :
    buildDict l = l := by
  have h2 := foldl_upsert_append l [] (by simp) h
  simpa [buildDict] using h2

/-- C4 counterexample: an abstract section whose `<abstract>` element
carries a `class` attribute.  The claim says the narrative sub-parser
emits every attribute except `class` and the record never contains a
`class` key; the code (`yield from abstract.attrs.items()`) emits every
attribute without exception, so the record does contain the `class`
key. -/
theorem abstract_keeps_class_counterexample :
    parse_abstract c4sec
      = .ok [("class", .arr [.str "abstract-text"]), ("id", .str "abs"),
             ("content", .str "Text.")] ∧
    (recLookup [("class", Value.arr [Value.str "abstract-text"]), ("id", Value.str "abs"),
      ("content", Value.str "Text.")] "class").isSome = true := by
  constructor
  · have hfind : findNamedInList "abstract" (HNode.children c4sec)
        = some (.elem 41 "abstract" [("class", .many ["abstract-text"]), ("id", .one "abs")]
            [.text "Text."]) := by
      simp [findNamedInList, c4sec, HNode.children]
    simp only [parse_abstract]
    rw [hfind]
    rfl
  · rfl

/-- C4 amended: the narrative (`abstract`) sub-parser emits **every**
attribute of the fixed-role `<abstract>` descendant, the `class`
attribute included — unlike the description and claims sub-parsers,
which filter `class` out — plus the `content` field.  (Stated for
elements whose attribute keys are distinct and do not include
`content`, as produced by an HTML parser.) -/
theorem abstract_emits_all_attrs (s ab : HNode)
    (hfind : findNamedInList "abstract" s.children = some ab)
    (hnodup : (ab.attrs.map Prod.fst).Nodup)
    (hnc : ∀ p ∈ ab.attrs, p.1 ≠ "content") :
    parse_abstract s = .ok (allAttrFields ab ++ [("content", .str ab.getTextStrip)]) := by
  simp only [parse_abstract]
  rw [hfind]
  simp only []
  congr 1
  apply buildDict_eq_self
  have hkeys : (allAttrFields ab).map Prod.fst = ab.attrs.map Prod.fst := by
    simp [allAttrFields, List.map_map]
  rw [List.map_append, hkeys]
  rw [List.nodup_append]
  refine ⟨hnodup, by simp, ?_⟩
  intro a ha hb
  simp only [List.map_cons, List.map_nil, List.mem_singleton] at hb
  rcases List.mem_map.mp ha with ⟨p, hp, hpa⟩
  exact hnc p hp (hpa.trans hb)

/-- C4 amended witness: the `class`-carrying abstract element of
`c4sec`. -/
theorem abstract_emits_all_attrs_witness :
    parse_abstract c4sec
      = .ok (allAttrFields (.elem 41 "abstract"
            [("class", .many ["abstract-text"]), ("id", .one "abs")] [.text "Text."])
          ++ [("content", .str (HNode.getTextStrip (.elem 41 "abstract"
            [("class", .many ["abstract-text"]), ("id", .one "abs")] [.text "Text."])))]) :=
  abstract_emits_all_attrs c4sec
    (.elem 41 "abstract" [("class", .many ["abstract-text"]), ("id", .one "abs")] [.text "Text."])
    (by simp [findNamedInList, c4sec, HNode.children])
    (by decide) (by decide)

/-! ## Claim C8 -/

theorem hasNamed_text_cons (nm s : String) (rest : List HNode) :
    hasNamed nm (.text s :: rest) = hasNamed nm rest := by
  rw [hasNamed]

theorem hasNamed_elem_cons_false (nm : String) (tid : Nat) (n : String)
    (attrs : List (String × AttrV)) (cs rest : List HNode)
    (h : hasNamed nm (.elem tid n attrs cs :: rest) = false) :
    (n == nm) = false ∧ hasNamed nm cs = false ∧ hasNamed nm rest = false := by
  rw [hasNamed, Bool.or_eq_false_iff, Bool.or_eq_false_iff] at h
  exact ⟨h.1.1, h.1.2, h.2⟩

theorem findNamedWithAnc_of_absent (nm : String) (anc ts : List HNode) :
    hasNamed nm ts = false → findNamedWithAnc nm anc ts = none := by
  induction anc, ts using findNamedWithAnc.induct nm with
  | case1 anc =>
    intro _
    rw [findNamedWithAnc]
  | case2 anc s rest ih =>
    intro h
    rw [findNamedWithAnc]
    exact ih (by rw [hasNamed_text_cons] at h; exact h)
  | case3 anc tid n attrs cs rest hnm =>
    intro h
    obtain ⟨h1, h2, h3⟩ := hasNamed_elem_cons_false nm tid n attrs cs rest h
    exact absurd hnm (by simp [h1])
  | case4 anc tid n attrs cs rest hnm r hsome ihcs =>
    intro h
    obtain ⟨h1, h2, h3⟩ := hasNamed_elem_cons_false nm tid n attrs cs rest h
    have h4 := ihcs h2
    rw [h4] at hsome
    cases hsome
  | case5 anc tid n attrs cs rest hnm hnone ihcs ihrest =>
    intro h
    obtain ⟨h1, h2, h3⟩ := hasNamed_elem_cons_false nm tid n attrs cs rest h
    rw [findNamedWithAnc]
    simp only [h1, Bool.false_eq_true, if_false]
    rw [hnone]
    exact ihrest h3

theorem findNamedWithAnc_subtree_absent (nmf nm : String) (r : HNode) (ranc : List HNode)
    (anc ts : List HNode) :
    findNamedWithAnc nmf anc ts = some (r, ranc) → hasNamed nm ts = false →
      hasNamed nm r.children = false := by
  induction anc, ts using findNamedWithAnc.induct nmf with
  | case1 anc =>
    intro hf _
    rw [findNamedWithAnc] at hf
    cases hf
  | case2 anc s rest ih =>
    intro hf h
    rw [findNamedWithAnc] at hf
    exact ih hf (by rw [hasNamed_text_cons] at h; exact h)
  | case3 anc tid n attrs cs rest hnm =>
    intro hf h
    obtain ⟨h1, h2, h3⟩ := hasNamed_elem_cons_false nm tid n attrs cs rest h
    rw [findNamedWithAnc] at hf
    simp only [hnm, if_true] at hf
    cases hf
    simpa [HNode.children] using h2
  | case4 anc tid n attrs cs rest hnm r0 hsome ihcs =>
    intro hf h
    obtain ⟨h1, h2, h3⟩ := hasNamed_elem_cons_false nm tid n attrs cs rest h
    rw [findNamedWithAnc] at hf
    simp only [show (n == nmf) = false from by simpa using hnm, Bool.false_eq_true,
      if_false, hsome] at hf
    exact ihcs (hsome.trans hf) h2
  | case5 anc tid n attrs cs rest hnm hnone ihcs ihrest =>
    intro hf h
    obtain ⟨h1, h2, h3⟩ := hasNamed_elem_cons_false nm tid n attrs cs rest h
    rw [findNamedWithAnc] at hf
    simp only [show (n == nmf) = false from by simpa using hnm, Bool.false_eq_true,
      if_false, hnone] at hf
    exact ihrest hf h3

/-- C8: a document with no `html` root element, or with no `article`
element anywhere under the root, makes `parse` fail with the structural
`assert` error; in the `Except` model no record (partial or empty) is
produced. -/
theorem missing_article_fails (doc : List HNode) (hack : List Nat)
    (h : hasNamed "html" doc = false ∨ hasNamed "article" doc = false) :
    parse doc hack = .error .assertionError := by
  rcases h with h | h
  · rw [parse, findNamedWithAnc_of_absent "html" [] doc h]
  · cases hf : findNamedWithAnc "html" [] doc with
    | none => rw [parse, hf]
    | some p =>
      obtain ⟨root, rootAnc⟩ := p
      have hsub : hasNamed "article" root.children = false :=
        findNamedWithAnc_subtree_absent "html" "article" root rootAnc [] doc hf h
      rw [parse, hf]
      simp only []
      rw [findNamedWithAnc_of_absent "article" (root :: rootAnc) root.children hsub]

/-- C8 witness: a well-formed root whose body holds no article. -/
theorem missing_article_fails_witness :
    hasNamed "article" [HNode.elem 1 "html" [] [.elem 2 "body" [] []]] = false ∧
    parse [HNode.elem 1 "html" [] [.elem 2 "body" [] []]] [] = .error .assertionError :=
  ⟨by simp [hasNamed],
   missing_article_fails [HNode.elem 1 "html" [] [.elem 2 "body" [] []]] []
     (Or.inr (by simp [hasNamed]))⟩

/-! ## Claim C7 -/

theorem buildParts_acc (ts : List HNode) :
    ∀ (h : String) (ls acc : List Value),
      buildParts ts h ls acc = acc ++ buildParts ts h ls [] := by
  induction ts with
  | nil => intro h ls acc; simp [buildParts]
  | cons t ts ih =>
    intro h ls acc
    by_cases ht : (t.name == "heading") = true
    · simp only [buildParts, ht, if_true, List.nil_append]
      rw [ih t.getTextStrip [] (acc ++ [descPart h ls]), ih t.getTextStrip [] [descPart h ls]]
      simp
    · have ht' : (t.name == "heading") = false := by simpa using ht
      simp only [buildParts, ht', Bool.false_eq_true, if_false]
      exact ih h (ls ++ [descLine t]) acc

theorem buildParts_length (ts : List HNode) :
    ∀ (h : String) (ls acc : List Value),
      (buildParts ts h ls acc).length
        = acc.length + (ts.countP (fun t => t.name == "heading")) + 1 := by
  induction ts with
  | nil => intro h ls acc; simp [buildParts]
  | cons t ts ih =>
    intro h ls acc
    by_cases ht : (t.name == "heading") = true
    · simp only [buildParts, ht, if_true, List.nil_append]
      rw [ih t.getTextStrip [] (acc ++ [descPart h ls]), List.countP_cons]
      simp only [ht, if_true, List.length_append, List.length_cons, List.length_nil]
      omega
    · have ht' : (t.name == "heading") = false := by simpa using ht
      simp only [buildParts, ht', Bool.false_eq_true, if_false]
      rw [ih h (ls ++ [descLine t]) acc, List.countP_cons]
      simp [ht']

theorem specDescPartsTail_cons_line (t : HNode) (ts : List HNode)
    (ht : (t.name == "heading") = false) :
    specDescPartsTail (t :: ts) = specDescPartsTail ts := by
  rw [specDescPartsTail, specDescPartsTail]
  rw [List.dropWhile_cons_of_pos (by simp [ht])]

theorem specDescPartsTail_cons_heading (t : HNode) (ts : List HNode)
    (ht : (t.name == "heading") = true) :
    specDescPartsTail (t :: ts) = specDescParts t.getTextStrip ts := by
  rw [specDescPartsTail]
  rw [List.dropWhile_cons_of_neg (by simp [ht])]

theorem buildParts_eq_spec (ts : List HNode) :
    ∀ (h : String) (ls : List Value),
      buildParts ts h ls []
        = descPart h (ls ++ (ts.takeWhile (fun t => !(t.name == "heading"))).map descLine)
            :: specDescPartsTail ts := by
  induction ts with
  | nil =>
    intro h ls
    rw [specDescPartsTail]
    simp [buildParts, List.takeWhile_nil]
  | cons t ts ih =>
    intro h ls
    by_cases ht : (t.name == "heading") = true
    · simp only [buildParts, ht, if_true, List.nil_append]
      rw [buildParts_acc ts t.getTextStrip [] [descPart h ls]]
      rw [ih t.getTextStrip []]
      rw [List.takeWhile_cons_of_neg (by simp [ht])]
      rw [specDescPartsTail_cons_heading t ts ht]
      rw [specDescParts]
      simp
    · have ht' : (t.name == "heading") = false := by simpa using ht
      simp only [buildParts, ht', Bool.false_eq_true, if_false]
      rw [ih h (ls ++ [descLine t])]
      rw [List.takeWhile_cons_of_pos (by simp [ht'])]
      rw [specDescPartsTail_cons_line t ts ht']
      simp

/-- C7: the multi-part narrative sub-parser partitions the description
section's H heading elements and its `description-line` elements, in
document order, into exactly H+1 parts: the `parts` list equals the
spec-side partition `specDescParts ""` — a preamble part with empty
heading holding the lines before the first heading (present even with
no lines), each heading closing and pushing the previous part and
opening a new one, the final open part pushed at the end, every line in
the part of the nearest preceding heading — and its length is the
heading count plus one. -/
theorem description_parts (s d : HNode) (danc : List HNode)
    (hfind : findClassInList "description" [s] s.children = some (d, danc)) :
    parse_description s
      = .ok (buildDict (attrs_except_class d
          ++ [("parts", .arr (specDescParts "" (findDescTargetsInList d.children)))]))
    ∧ (specDescParts "" (findDescTargetsInList d.children)).length
        = (findDescTargetsInList d.children).countP (fun t => t.name == "heading") + 1 := by
  constructor
  · rw [parse_description, hfind]
    simp only []
    rw [show buildParts (findDescTargetsInList d.children) "" [] []
          = specDescParts "" (findDescTargetsInList d.children) from by
      rw [buildParts_eq_spec, specDescParts]
      simp]
  · rw [show specDescParts "" (findDescTargetsInList d.children)
          = buildParts (findDescTargetsInList d.children) "" [] [] from by
      rw [buildParts_eq_spec, specDescParts]
      simp]
    rw [buildParts_length]
    simp

/-- C7 witness: a description with two headings and three lines (one
before the first heading) — 3 parts. -/
theorem description_parts_witness :
    parse_description c7sec
      = .ok (buildDict (attrs_except_class (.elem 31 "div"
            [("class", .many ["description"]), ("id", .one "desc")] [
        .elem 32 "div" [("class", .many ["description-line"]), ("num", .one "0001")] [.text "Preamble line."],
        .elem 33 "heading" [] [.text "FIELD"],
        .elem 34 "div" [("class", .many ["description-line"]), ("num", .one "0002")] [.text "Field line."],
        .elem 35 "heading" [] [.text "BACKGROUND"],
        .elem 36 "div" [("class", .many ["description-line"])] [.text "Background line."]])
          ++ [("parts", .arr (specDescParts "" (findDescTargetsInList (HNode.children (.elem 31 "div"
            [("class", .many ["description"]), ("id", .one "desc")] [
        .elem 32 "div" [("class", .many ["description-line"]), ("num", .one "0001")] [.text "Preamble line."],
        .elem 33 "heading" [] [.text "FIELD"],
        .elem 34 "div" [("class", .many ["description-line"]), ("num", .one "0002")] [.text "Field line."],
        .elem 35 "heading" [] [.text "BACKGROUND"],
        .elem 36 "div" [("class", .many ["description-line"])] [.text "Background line."]])))))]))
    ∧ (specDescParts "" (findDescTargetsInList (HNode.children (.elem 31 "div"
            [("class", .many ["description"]), ("id", .one "desc")] [
        .elem 32 "div" [("class", .many ["description-line"]), ("num", .one "0001")] [.text "Preamble line."],
        .elem 33 "heading" [] [.text "FIELD"],
        .elem 34 "div" [("class", .many ["description-line"]), ("num", .one "0002")] [.text "Field line."],
        .elem 35 "heading" [] [.text "BACKGROUND"],
        .elem 36 "div" [("class", .many ["description-line"])] [.text "Background line."]])))).length
      = (findDescTargetsInList (HNode.children (.elem 31 "div"
            [("class", .many ["description"]), ("id", .one "desc")] [
        .elem 32 "div" [("class", .many ["description-line"]), ("num", .one "0001")] [.text "Preamble line."],
        .elem 33 "heading" [] [.text "FIELD"],
        .elem 34 "div" [("class", .many ["description-line"]), ("num", .one "0002")] [.text "Field line."],
        .elem 35 "heading" [] [.text "BACKGROUND"],
        .elem 36 "div" [("class", .many ["description-line"])] [.text "Background line."]]))).countP
          (fun t => t.name == "heading") + 1 :=
  description_parts c7sec
    (.elem 31 "div" [("class", .many ["description"]), ("id", .one "desc")] [
        .elem 32 "div" [("class", .many ["description-line"]), ("num", .one "0001")] [.text "Preamble line."],
        .elem 33 "heading" [] [.text "FIELD"],
        .elem 34 "div" [("class", .many ["description-line"]), ("num", .one "0002")] [.text "Field line."],
        .elem 35 "heading" [] [.text "BACKGROUND"],
        .elem 36 "div" [("class", .many ["description-line"])] [.text "Background line."]])
    [c7sec]
    (by simp [findClassInList, c7sec, HNode.children, has_class, HNode.classes,
      HNode.getAttr, HNode.attrs, List.find?])

/-! ## Claim C6 -/

/-- First-seen deduplication gives the same result over seen-sets with
the same members. -/
theorem firstSeenDedup_congr (xs : List HNode) :
    ∀ s1 s2 : List Nat, (∀ a : Nat, a ∈ s1 ↔ a ∈ s2) →
      firstSeenDedup xs s1 = firstSeenDedup xs s2 := by
  induction xs with
  | nil => intro s1 s2 _; rfl
  | cons c xs ih =>
    intro s1 s2 hiff
    rw [firstSeenDedup, firstSeenDedup]
    by_cases hm : c.nodeId ∈ s1
    · rw [if_pos hm, if_pos ((hiff c.nodeId).mp hm)]
      exact ih s1 s2 hiff
    · rw [if_neg hm, if_neg (fun hx => hm ((hiff c.nodeId).mpr hx))]
      refine congrArg _ (ih _ _ ?_)
      intro a
      simp only [List.mem_cons]
      exact ⟨fun h => h.elim Or.inl (fun h2 => Or.inr ((hiff a).mp h2)),
             fun h => h.elim Or.inl (fun h2 => Or.inr ((hiff a).mpr h2))⟩

theorem firstSeenDedup_nodup (xs : List HNode) :
    ∀ seen : List Nat,
      ((firstSeenDedup xs seen).map HNode.nodeId).Nodup ∧
      ∀ c ∈ firstSeenDedup xs seen, c.nodeId ∉ seen := by
  induction xs with
  | nil => intro seen; exact ⟨List.nodup_nil, by intro c hc; cases hc⟩
  | cons c xs ih =>
    intro seen
    rw [firstSeenDedup]
    by_cases hm : c.nodeId ∈ seen
    · rw [if_pos hm]
      exact ih seen
    · rw [if_neg hm]
      obtain ⟨ihn, ihm⟩ := ih (c.nodeId :: seen)
      constructor
      · simp only [List.map_cons, List.nodup_cons]
        refine ⟨?_, ihn⟩
        intro hmem
        rcases List.mem_map.mp hmem with ⟨d, hd, hde⟩
        exact (ihm d hd) (hde ▸ List.mem_cons_self _ _)
      · intro d hd
        rcases List.mem_cons.mp hd with rfl | hd2
        · exact hm
        · exact fun hx => (ihm d hd2) (List.mem_cons_of_mem _ hx)

theorem find_claims_go_spec (leaves : List (HNode × List HNode)) :
    ∀ seen : List Nat,
      (∀ l ∈ leaves, (findParentClaim l.2).isSome) →
      find_claims_go leaves seen
        = .ok (firstSeenDedup (leaves.filterMap (fun l => findParentClaim l.2)) seen) := by
  induction leaves with
  | nil => intro seen _; rfl
  | cons l rest ih =>
    intro seen hall
    obtain ⟨x, anc⟩ := l
    obtain ⟨c, hc⟩ := Option.isSome_iff_exists.mp (hall (x, anc) (List.mem_cons_self _ _))
    rw [find_claims_go, hc]
    simp only []
    rw [ih (c.nodeId :: seen) (fun y hy => hall y (List.mem_cons_of_mem _ hy))]
    rw [List.filterMap_cons]
    simp only [hc]
    rw [firstSeenDedup]
    by_cases hm : c.nodeId ∈ seen
    · simp only [hm, if_true]
      exact congrArg _ (firstSeenDedup_congr _ _ _ (fun a => by
        simp only [List.mem_cons]
        exact ⟨fun h => h.elim (fun he => he ▸ hm) id, Or.inr⟩))
    · simp only [hm, if_false]

/-- C6: the repeated-item block parser returns, under the `claims` key,
exactly one entry per distinct (by identity) nearest `claim`-classed
ancestor of the `claim-text` leaves, in first-seen document order
(`firstSeenDedup` over the leaves' nearest ancestors), regardless of
nesting depth; each entry holds the wrapper's non-class attributes plus
`text` = the wrapper's full visible text (which contains all its nested
leaves' text).  The returned wrappers' identities are pairwise
distinct. -/
theorem claims_dedup (s : HNode) (sanc : List HNode) (ct : HNode) (ctAnc : List HNode)
    (hfind : findClassInList "claims" (s :: sanc) s.children = some (ct, ctAnc))
    (hall : ∀ l ∈ findClaimTextInList (ct :: ctAnc) ct.children, (findParentClaim l.2).isSome) :
    parse_claims s sanc
      = .ok (buildDict (attrs_except_class ct
          ++ [("claims", .arr ((firstSeenDedup
                ((findClaimTextInList (ct :: ctAnc) ct.children).filterMap
                  (fun l => findParentClaim l.2)) []).map
                (fun c => .obj (parse_claim c))))]))
    ∧ ((firstSeenDedup ((findClaimTextInList (ct :: ctAnc) ct.children).filterMap
          (fun l => findParentClaim l.2)) []).map HNode.nodeId).Nodup := by
  constructor
  · rw [parse_claims, hfind]
    simp only []
    rw [find_claims, find_claims_go_spec _ [] hall]
  · exact (firstSeenDedup_nodup _ []).1

/-- C6 witness: leaves at depth 2 inside one `claim` wrapper and depth 4
inside another yield one entry per wrapper. -/
theorem claims_dedup_witness :
    parse_claims c6sec []
      = .ok (buildDict (attrs_except_class c6claimsTag
          ++ [("claims", .arr ((firstSeenDedup
                ((findClaimTextInList (c6claimsTag :: [c6sec]) c6claimsTag.children).filterMap
                  (fun l => findParentClaim l.2)) []).map
                (fun c => .obj (parse_claim c))))]))
    ∧ ((firstSeenDedup ((findClaimTextInList (c6claimsTag :: [c6sec]) c6claimsTag.children).filterMap
          (fun l => findParentClaim l.2)) []).map HNode.nodeId).Nodup :=
  claims_dedup c6sec [] c6claimsTag [c6sec]
    (by simp [findClassInList, c6sec, c6claimsTag, HNode.children, has_class, HNode.classes,
      HNode.getAttr, HNode.attrs, List.find?])
    (by simp [findClaimTextInList, c6claimsTag, c6sec, HNode.children, has_class, HNode.classes,
      HNode.getAttr, HNode.attrs, List.find?, findParentClaim])

end PatentFetcher
